import Mathlib

/-
Verification of the gisproxy request-forwarding engine (package lib,
file lib/gisproxy.go) against its natural-language specification.

Strings are modelled as List Char; Go strings are byte strings, and all
inputs relevant here are ASCII, so one Char stands for one byte.
Go standard-library collaborators (strings.*, encoding/base64, net/url,
net/http header maps) are embedded as executable Lean functions that
follow the behaviour of those libraries on the inputs the proxy can see;
each such model notes its scope in a comment.
-/

set_option autoImplicit false

/-- Newline character, written via its code point. -/
def nlChar : Char := Char.ofNat 10

/-- Models strings.ToLower for ASCII input (all inputs here are ASCII). -/
def lcChar (c : Char) : Char :=
  if 65 ≤ c.toNat ∧ c.toNat ≤ 90 then Char.ofNat (c.toNat + 32) else c

/-- Models strings.ToUpper for ASCII input. -/
def ucChar (c : Char) : Char :=
  if 97 ≤ c.toNat ∧ c.toNat ≤ 122 then Char.ofNat (c.toNat - 32) else c

/-- Lowercase a whole string. -/
def lcList (s : List Char) : List Char := s.map lcChar

/-- Uppercase a whole string. -/
def upList (s : List Char) : List Char := s.map ucChar

/-- Models strings.HasPrefix: pat is an initial segment of s. -/
def isPre : List Char → List Char → Bool
  | [], _ => true
  | _ :: _, [] => false
  | a :: as, b :: bs => a = b && isPre as bs

/-- Models strings.Index: index of the leftmost occurrence of pat in s. -/
def idxOfSub (pat : List Char) : List Char → Option Nat
  | [] => if pat.isEmpty then some 0 else none
  | a :: rest =>
    if isPre pat (a :: rest) then some 0
    else (idxOfSub pat rest).map (· + 1)

/-- Models strings.Contains. -/
def containsSub (pat s : List Char) : Bool := (idxOfSub pat s).isSome

/-- Models strings.ReplaceAll with a three-character pattern p0 p1 p2 and a
one-character replacement r: leftmost, non-overlapping replacement. -/
def replace3 (p0 p1 p2 r : Char) : List Char → List Char
  | a :: b :: c :: rest =>
    if a = p0 ∧ b = p1 ∧ c = p2 then r :: replace3 p0 p1 p2 r rest
    else a :: replace3 p0 p1 p2 r (b :: c :: rest)
  | other => other

/-- The standard base64 alphabet used by encoding/base64 StdEncoding. -/
def b64Abc : List Char :=
  "ABCDEFGHIJKLMNOPQRSTUVWXYZabcdefghijklmnopqrstuvwxyz0123456789+/".toList

/-- Index scan helper for the base64 alphabet. -/
def b64IxAux : List Char → Char → Nat → Option Nat
  | [], _, _ => none
  | a :: as, c, i => if a = c then some i else b64IxAux as c (i + 1)

/-- Value of a base64 alphabet character, none for characters outside the
alphabet (including the padding character). -/
def b64Ix (c : Char) : Option Nat := b64IxAux b64Abc c 0

/-- Models encoding/base64 StdEncoding.DecodeString, processing four-character
quanta; on failure the error carries the index of the offending input byte,
as CorruptInputError does.  Trailing padding bits are not checked (StdEncoding
is not strict), and the input is assumed free of CR and LF, which cannot occur
in an HTTP request path segment. -/
def b64DecLoop (pos : Nat) : List Char → Except Nat (List Nat)
  | [] => Except.ok []
  | [c0] =>
    match b64Ix c0 with
    | none => Except.error pos
    | some _ => Except.error pos
  | [c0, c1] =>
    match b64Ix c0 with
    | none => Except.error pos
    | some _ =>
      match b64Ix c1 with
      | none => Except.error (pos + 1)
      | some _ => Except.error pos
  | [c0, c1, c2] =>
    match b64Ix c0 with
    | none => Except.error pos
    | some _ =>
      match b64Ix c1 with
      | none => Except.error (pos + 1)
      | some _ =>
        if c2 = '=' then Except.error (pos + 3)
        else
          match b64Ix c2 with
          | none => Except.error (pos + 2)
          | some _ => Except.error pos
  | c0 :: c1 :: c2 :: c3 :: rest =>
    match b64Ix c0 with
    | none => Except.error pos
    | some v0 =>
      match b64Ix c1 with
      | none => Except.error (pos + 1)
      | some v1 =>
        if c2 = '=' then
          if c3 = '=' then
            match rest with
            | [] => Except.ok [v0 * 4 + v1 / 16]
            | _ => Except.error (pos + 4)
          else Except.error (pos + 2)
        else
          match b64Ix c2 with
          | none => Except.error (pos + 2)
          | some v2 =>
            if c3 = '=' then
              match rest with
              | [] => Except.ok [v0 * 4 + v1 / 16, v1 % 16 * 16 + v2 / 4]
              | _ => Except.error (pos + 4)
            else
              match b64Ix c3 with
              | none => Except.error (pos + 3)
              | some v3 =>
                match b64DecLoop (pos + 4) rest with
                | Except.error e => Except.error e
                | Except.ok bs =>
                  Except.ok ((v0 * 4 + v1 / 16) :: (v1 % 16 * 16 + v2 / 4) ::
                    (v2 % 4 * 64 + v3) :: bs)

/-- Base64 decode of a whole string. -/
def b64Dec (s : List Char) : Except Nat (List Nat) := b64DecLoop 0 s

/-- Error text of encoding/base64 CorruptInputError. -/
def b64Msg (i : Nat) : List Char :=
  "illegal base64 data at input byte ".toList ++ (Nat.repr i).toList

/-- The three ReplaceAll calls of ComputeForwardUrl, in source order:
percent-2B to plus, then percent-2F to slash, then percent-3D to equals. -/
def unescSeg (s : List Char) : List Char :=
  replace3 '%' '3' 'D' '=' (replace3 '%' '2' 'F' '/' (replace3 '%' '2' 'B' '+' s))

/-- Characters that end the encoded segment in the pattern of
ComputeForwardUrl: the negated character class excludes slash and the
question mark. -/
def sepChar (c : Char) : Bool := c = '/' || c = '?'

/-- Third capture group of the pattern: an optional separator character
followed by a greedy dot-star, which in RE2 stops at a newline. -/
def grp3 : List Char → List Char
  | [] => []
  | c :: rest => c :: rest.takeWhile (fun d => d ≠ nlChar)

/-- One attempt of the pattern of ComputeForwardUrl at the start of s: the
configured prefix taken literally, then a nonempty run of characters that are
neither slash nor question mark (the encoded segment), then the trailing
remainder.  Returns the second and third capture groups. -/
def capAt (pre s : List Char) : Option (List Char × List Char) :=
  if isPre pre s then
    let t := s.drop pre.length
    let g2 := t.takeWhile (fun c => !sepChar c)
    if g2.isEmpty then none else some (g2, grp3 (t.dropWhile (fun c => !sepChar c)))
  else none

/-- Models FindStringSubmatch for the pattern of ComputeForwardUrl: the
leftmost position where the pattern matches wins. -/
def findCap (pre : List Char) : List Char → Option (List Char × List Char)
  | [] => none
  | a :: rest =>
    match capAt pre (a :: rest) with
    | some r => some r
    | none => findCap pre rest

/-- The literal three characters colon slash slash. -/
def schemeSep : List Char := [':', '/', '/']

/-- The scheme stripping step of ComputeForwardUrl: if the scheme separator
occurs and its index is below ten, everything up to and including it is
dropped. -/
def stripScheme (s : List Char) : List Char :=
  match idxOfSub schemeSep s with
  | none => s
  | some i => if i < 10 then s.drop (i + 3) else s

/-- Prefix normalization done by serveHTTP before matching: default to a
slash, force a leading slash and a trailing slash. -/
def normPre (p : List Char) : List Char :=
  let p1 := if p.isEmpty then ['/'] else p
  let p2 := if isPre ['/'] p1 then p1 else '/' :: p1
  if p2.getLast? = some '/' then p2 else p2 ++ ['/']

/-- ASCII letter test. -/
def isAlphaCh (c : Char) : Bool :=
  (65 ≤ c.toNat && c.toNat ≤ 90) || (97 ≤ c.toNat && c.toNat ≤ 122)

/-- ASCII digit test. -/
def isDigitCh (c : Char) : Bool := 48 ≤ c.toNat && c.toNat ≤ 57

/-- ASCII hexadecimal digit test, as net/url ishex. -/
def isHexCh (c : Char) : Bool :=
  isDigitCh c || (97 ≤ c.toNat && c.toNat ≤ 102) || (65 ≤ c.toNat && c.toNat ≤ 70)

/-- Tail of a URI scheme: letters, digits, plus, minus or dot up to a colon. -/
def schemeTail : List Char → Bool
  | [] => false
  | c :: rest =>
    if c = ':' then true
    else (isAlphaCh c || isDigitCh c || c = '+' || c = '-' || c = '.') && schemeTail rest

/-- Whether a string begins with a URI scheme: a letter followed by scheme
characters and a colon, as net/url getScheme recognises one. -/
def hasScheme (l : List Char) : Bool :=
  match l with
  | [] => false
  | c :: rest => isAlphaCh c && schemeTail rest

/-- The scheme part of a string that hasScheme accepts. -/
def schemeOf (ref : List Char) : List Char := ref.takeWhile (fun c => ¬c = ':')

/-- Everything after the colon of the scheme. -/
def afterScheme (ref : List Char) : List Char :=
  (ref.dropWhile (fun c => ¬c = ':')).drop 1

/-- Absence of ASCII control characters, the first check of net/url Parse. -/
def noCtl (s : List Char) : Bool :=
  !(s.any (fun c => c.toNat < 32 || c.toNat = 127))

/-- Characters net/url shouldEscape accepts raw in a host name: letters,
digits, the unreserved marks and the host sub-delims. -/
def hostCharOk (c : Char) : Bool :=
  isAlphaCh c || isDigitCh c ||
  c = '-' || c = '_' || c = '.' || c = '~' ||
  c = '!' || c = '$' || c = '&' || c = Char.ofNat 39 || c = '(' || c = ')' ||
  c = '*' || c = '+' || c = ',' || c = ';' || c = '=' || c = ':' ||
  c = '[' || c = ']' || c = '<' || c = '>' || c = Char.ofNat 34

/-- The suffix of s after the last occurrence of c, empty when c is absent. -/
def afterLast (c : Char) (s : List Char) : List Char :=
  (s.reverse.takeWhile (fun d => ¬d = c)).reverse

/-- Models the port validation of net/url parseHost: a bracketed host needs a
closing bracket followed by an optional colon-and-digits port; otherwise
whatever follows the last colon must be digits (validOptionalPort). -/
def portOkGo (auth : List Char) : Bool :=
  if isPre ['['] auth then
    containsSub [']'] auth &&
      (let p := afterLast ']' auth
       p.isEmpty || (isPre [':'] p && (p.drop 1).all isDigitCh))
  else if containsSub [':'] auth then (afterLast ':' auth).all isDigitCh
  else true

/-- Characters that survive a path verbatim through Parse and String: the
characters net/url shouldEscape leaves raw in a path. -/
def pathCharOk (c : Char) : Bool :=
  isAlphaCh c || isDigitCh c ||
  c = '-' || c = '_' || c = '.' || c = '~' ||
  c = '!' || c = '$' || c = '&' || c = Char.ofNat 39 || c = '(' || c = ')' ||
  c = '*' || c = '+' || c = ',' || c = ';' || c = '=' ||
  c = ':' || c = '@' || c = '/'

/-- A path that parses and prints back verbatim: every character is either a
raw character shouldEscape leaves in place or part of a valid percent escape
(kept verbatim through RawPath). -/
def pathStable : List Char → Bool
  | [] => true
  | c :: rest =>
    if c = '%' then
      match rest with
      | a :: b :: rest2 => isHexCh a && isHexCh b && pathStable rest2
      | _ => false
    else pathCharOk c && pathStable rest

/-- A path-and-query suffix that is stable under Parse and String: the path
part must be stable; the query is stored raw and relayed verbatim. -/
def pathQueryStable (pq : List Char) : Bool :=
  pathStable (pq.takeWhile (fun c => ¬c = '?'))

/-- An authority-and-path suffix, beginning with the two slashes, that is
stable under Parse and String. -/
def hostPathStable (rest : List Char) : Bool :=
  let auth := (rest.drop 2).takeWhile (fun c => ¬(c = '/' ∨ c = '?'))
  auth.all hostCharOk && portOkGo auth &&
    pathQueryStable ((rest.drop 2).drop auth.length)

/-- Models the success of net/url Parse restricted to the parse-stable
fragment: strings the source both parses and prints back verbatim, so the
forward URL can be carried as the same string.  The model rejects control
characters and a leading colon as Parse does, and confines itself to URLs
with no fragment, an already lowercase scheme (Parse lowercases schemes, so
others do not round-trip), an authority made of raw host characters net/url
accepts (no percent escapes, no userinfo) with a digits-only port, and a path
of verbatim-safe characters and valid percent escapes; the query is stored
raw by Parse and is unchecked.  URLs outside this fragment (which Parse may
accept but normalise) are conservatively rejected. -/
def urlParseOk (s : List Char) : Bool :=
  noCtl s && !containsSub ['#'] s &&
  (match s with
   | [] => true
   | c :: _ =>
     if c = ':' then false
     else if hasScheme s then
       decide (lcList (schemeOf s) = schemeOf s) &&
         (let rest := afterScheme s
          if isPre ['/', '/'] rest then hostPathStable rest else true)
     else if isPre ['/', '/'] s then hostPathStable s
     else pathQueryStable s)

/-- Models ComputeForwardUrl of lib/gisproxy.go: strip an early scheme, match
the prefix pattern, undo the three percent substitutions, base64 decode, and
parse the decoded text concatenated with the trailing remainder.  The result
is the forward URL as a string; errors carry the Go error text. -/
def computeForwardUrl (pre requrl : List Char) : Except (List Char) (List Char) :=
  let s := stripScheme requrl
  match findCap pre s with
  | none => Except.error ("Prefix ".toList ++ pre ++ " not found in request".toList)
  | some (g2, g3) =>
    match b64Dec (unescSeg g2) with
    | Except.error i => Except.error (b64Msg i)
    | Except.ok bytes =>
      let fwd := bytes.map Char.ofNat ++ g3
      if urlParseOk fwd then Except.ok fwd
      else Except.error ("parse ".toList ++ fwd ++
        ": net/url: invalid control character in URL".toList)

/-- Header maps: association list of canonical header name to its values, in
the order the values were added.  Go iterates its header map in unspecified
order; only per-name value order is meaningful, and the model keeps names in
insertion order. -/
abbrev Hdrs := List (List Char × List (List Char))

/-- Lookup of all values of a header name. -/
def hGet : Hdrs → List Char → Option (List (List Char))
  | [], _ => none
  | (k0, vs) :: rest, k => if k0 = k then some vs else hGet rest k

/-- Models http.Header.Add for an already canonical name. -/
def hAdd : Hdrs → List Char → List Char → Hdrs
  | [], k, v => [(k, [v])]
  | (k0, vs) :: rest, k, v =>
    if k0 = k then (k0, vs ++ [v]) :: rest else (k0, vs) :: hAdd rest k v

/-- Models http.Header.Set for an already canonical name. -/
def hSet : Hdrs → List Char → List Char → Hdrs
  | [], k, v => [(k, [v])]
  | (k0, vs) :: rest, k, v =>
    if k0 = k then (k, [v]) :: rest else (k0, vs) :: hSet rest k v

/-- Add every value of one name, in order. -/
def hAddValues (acc : Hdrs) (k : List Char) (vs : List (List Char)) : Hdrs :=
  vs.foldl (fun a v => hAdd a k v) acc

/-- The header copy loop used for both requests and responses: for every
name, add every value. -/
def hCopyAll (src dst : Hdrs) : Hdrs :=
  src.foldl (fun a kv => hAddValues a kv.1 kv.2) dst

/-- Go errors as the proxy distinguishes them: a StatusError carrying a
message and a code, or any other error carrying its text. -/
inductive GoError where
  | statusErr : List Char → Nat → GoError
  | plainErr : List Char → GoError
  deriving DecidableEq

/-- Models the Error method: StatusError formats message and code. -/
def errText : GoError → List Char
  | GoError.statusErr m c => m ++ " (".toList ++ (Nat.repr c).toList ++ ")".toList
  | GoError.plainErr m => m

/-- What one handler invocation writes to the caller: the response headers,
the status code, and the body bytes. -/
structure Written where
  headers : Hdrs
  status : Nat
  body : List Char
  deriving DecidableEq

/-- Canonical names of the CORS headers and of Location. -/
def acaoKey : List Char := "Access-Control-Allow-Origin".toList

/-- Name of the credentials CORS header. -/
def acacKey : List Char := "Access-Control-Allow-Credentials".toList

/-- Name of the methods CORS header. -/
def acamKey : List Char := "Access-Control-Allow-Methods".toList

/-- Name of the Location header. -/
def locKey : List Char := "Location".toList

/-- Value of the methods CORS header, verbatim from the source. -/
def acamVal : List Char :=
  "GET, PUT, POST, HEAD, TRACE, DELETE, PATCH, COPY, HEAD, LINK, OPTIONS".toList

/-- Models the CORS part of writeResponseHeader: when the flag is on, echo a
nonempty inbound Origin with credentials, else set the wildcard without
credentials; the methods header is always set. -/
def corsSet (allow : Bool) (origin : List Char) (hs : Hdrs) : Hdrs :=
  if allow then
    if !origin.isEmpty then
      hSet (hSet (hSet hs acaoKey origin) acacKey "true".toList) acamKey acamVal
    else hSet (hSet hs acaoKey "*".toList) acamKey acamVal
  else hs

/-- Models writeResponseHeader: add every value of the given header map into
the fresh response header, then apply the CORS policy. -/
def writeRespHdr (allow : Bool) (origin : List Char) (upstream : Hdrs) : Hdrs :=
  corsSet allow origin (hCopyAll upstream [])

/-- Models writeError: CORS headers are written with no upstream header map,
then a StatusError with code 200 becomes a plain body write with implicit
status 200, a StatusError with code 302 becomes a redirect with Location set
to the message, and anything else goes through http.Error, whose body is the
error text plus a newline. -/
def writeErrorM (allow : Bool) (origin : List Char) (e : GoError) : Written :=
  let base := corsSet allow origin []
  match e with
  | GoError.statusErr m c =>
    if c = 200 then ⟨base, 200, m⟩
    else if c = 302 then ⟨hSet base locKey m, 302, []⟩
    else ⟨base, c, errText e ++ [nlChar]⟩
  | GoError.plainErr m => ⟨base, 500, m ++ [nlChar]⟩

/-- Whether writeError logs the error: only its http.Error branches log. -/
def writeErrorLogs : GoError → Bool
  | GoError.statusErr _ c => !(c = 200) && !(c = 302)
  | GoError.plainErr _ => true

/-- Whether sendRequestWithContext logs a hook failure before returning it:
every error except a StatusError with code 302. -/
def sendPhaseLogs : GoError → Bool
  | GoError.statusErr _ c => !(c = 302)
  | GoError.plainErr _ => true

/-- Result of the pre-send stage of sendRequestWithContext. -/
structure SendPhase where
  contacted : Bool
  logged : Bool
  failure : Option GoError
  deriving DecidableEq

/-- Models the pre-send hook invocation of sendRequestWithContext: on hook
failure the request is not sent and the error propagates, logged unless it is
a StatusError with code 302. -/
def preSend (hookRes : Option GoError) : SendPhase :=
  match hookRes with
  | none => ⟨true, false, none⟩
  | some e => ⟨false, sendPhaseLogs e, some e⟩

/-- The outbound request as sendRequestWithContext builds it. -/
structure OutReq where
  method : List Char
  target : List Char
  body : Option (List Char)
  hdrs : Hdrs
  deriving DecidableEq

/-- The three methods for which the source passes the inbound body to the
new outbound request; every other method gets a nil body. -/
def isBodyMethod (m : List Char) : Bool :=
  m = "PUT".toList || m = "POST".toList || m = "PATCH".toList

/-- Models the request construction of sendRequestWithContext: same method
and target, the inbound body only for PUT, POST and PATCH, and every inbound
header value added in order. -/
def buildOutReq (method target bodyBytes : List Char) (inHdrs : Hdrs) : OutReq :=
  ⟨method, target,
    if isBodyMethod method then some bodyBytes else none,
    hCopyAll inHdrs []⟩

/-- Outcome of serveHTTP before any upstream response is handled. -/
inductive ServeStep where
  | delegated : ServeStep
  | errored : GoError → ServeStep
  | forwarded : List Char → ServeStep
  deriving DecidableEq

/-- Models the routing part of serveHTTP: normalize the prefix, compute the
forward URL, and on any error either delegate to the next handler when one is
configured or write the error; on success the request is forwarded. -/
def serveStep (rawPre : List Char) (hasNext : Bool) (requrl : List Char) : ServeStep :=
  let pre := normPre rawPre
  match computeForwardUrl pre requrl with
  | Except.error m => if hasNext then ServeStep.delegated else ServeStep.errored (GoError.plainErr m)
  | Except.ok fwd => ServeStep.forwarded fwd

/-- All start indices at which pat occurs in s, ascending. -/
def occAux (pat : List Char) : List Char → Nat → List Nat
  | [], i => if isPre pat [] then [i] else []
  | c :: rest, i =>
    (if isPre pat (c :: rest) then [i] else []) ++ occAux pat rest (i + 1)

/-- One attempt of an ArcGIS pattern at the start of the path: the literal
services marker, case insensitive, then a nonempty greedy capture, then a
slash and the server kind.  The greedy dot-plus picks the last possible kind
occurrence, and cannot cross a newline. -/
def arcgisAt (kind s : List Char) : Option (List Char) :=
  if isPre "/services/".toList (lcList s) then
    let region := s.drop 10
    let bound := (region.takeWhile (fun c => c ≠ nlChar)).length
    let occs := (occAux ('/' :: kind) (lcList region) 0).filter
      (fun j => decide (1 ≤ j) && decide (j ≤ bound))
    match occs.getLast? with
    | none => none
    | some j => some (region.take j)
  else none

/-- Models FindStringSubmatch for the ArcGIS patterns of extractInfo: the
leftmost start position at which the whole pattern matches wins, and the
capture group is returned. -/
def arcgisFrom (kind : List Char) : List Char → Option (List Char)
  | [] => none
  | c :: rest =>
    match arcgisAt kind (c :: rest) with
    | some nm => some nm
    | none => arcgisFrom kind rest

/-- The inbound request data the classifier consumes: method, the value of
the Content-Type header, the parsed values of the URL query, and the parsed
values of a form body. -/
structure GoReq where
  method : List Char
  contentType : List Char
  queryParams : Hdrs
  bodyParams : Hdrs
  deriving DecidableEq

/-- The forward URL as extractInfo reads it: its full string and its path. -/
structure FwdUrl where
  full : List Char
  path : List Char
  deriving DecidableEq

/-- Content types that make extractInfo parse the body. -/
def isFormCT (ct : List Char) : Bool :=
  containsSub "application/x-www-form-urlencoded".toList (lcList ct) ||
    containsSub "multipart/form-data".toList (lcList ct)

/-- Models the Form field after ParseForm on a urlencoded body: body values
first, query values appended after them per name. -/
def mergeVals (bodyP queryP : Hdrs) : Hdrs := hCopyAll queryP bodyP

/-- Models the population of request.Form in extractInfo: ParseMultipartForm
runs only for PUT, POST and PATCH with a form content type; a urlencoded body
is merged by ParseForm with body values before query values, while multipart
part values are appended after the query values; for every other request Form
stays nil and iterating it visits nothing. -/
def formOf (r : GoReq) : Hdrs :=
  if (r.method = "PUT".toList || r.method = "POST".toList || r.method = "PATCH".toList)
      && isFormCT r.contentType then
    if containsSub "application/x-www-form-urlencoded".toList (lcList r.contentType) then
      mergeVals r.bodyParams r.queryParams
    else
      hCopyAll r.bodyParams r.queryParams
  else []

/-- Models strings.Join with a comma separator. -/
def joinComma : List (List Char) → List Char
  | [] => []
  | [v] => v
  | v :: rest => v ++ ',' :: joinComma rest

/-- Mutable classification state of the parameter loop of extractInfo. -/
structure ClassState where
  st : List Char
  sv : List Char
  nm : List Char
  deriving DecidableEq

/-- One iteration of the parameter loop of extractInfo: a service parameter
with at least one value sets server and service type to its uppercased first
value; then, against the updated server type, the protocol specific name
parameter sets the service name to the joined values. -/
def classStep (acc : ClassState) (kv : List Char × List (List Char)) : ClassState :=
  let lk := lcList kv.1
  let acc1 :=
    if lk = "service".toList then
      match kv.2 with
      | [] => acc
      | v :: _ => ⟨upList v, upList v, acc.nm⟩
    else acc
  if acc1.st = "WMS".toList then
    if lk = "layers".toList then ⟨acc1.st, acc1.sv, joinComma kv.2⟩
    else if lk = "query_layers".toList then ⟨acc1.st, acc1.sv, joinComma kv.2⟩
    else acc1
  else if acc1.st = "WMTS".toList then
    if lk = "layer".toList then ⟨acc1.st, acc1.sv, joinComma kv.2⟩ else acc1
  else if acc1.st = "WFS".toList then
    if lk = "typenames".toList then ⟨acc1.st, acc1.sv, joinComma kv.2⟩
    else if lk = "typename".toList then ⟨acc1.st, acc1.sv, joinComma kv.2⟩
    else acc1
  else acc1

/-- The classification result. -/
structure GisInfo where
  serverURL : List Char
  serverType : List Char
  serviceType : List Char
  serviceName : List Char
  deriving DecidableEq

/-- Models taking the first piece of strings.Split: the string up to the
first occurrence of pat, or the whole string when pat does not occur. -/
def splitHead (s pat : List Char) : List Char :=
  match idxOfSub pat s with
  | none => s
  | some i => s.take i

/-- The services marker used for the ArcGIS server URL. -/
def restSvc : List Char := "/rest/services/".toList

/-- Models extractInfo of lib/gisproxy.go: try the three ArcGIS patterns on
the forward path in order, else populate Form as the source does and fold the
parameter loop over it; the server URL is the lowercased forward URL cut at
the services marker for ArcGIS, and cut at the query otherwise. -/
def extractInfo (r : GoReq) (fwd : FwdUrl) : GisInfo :=
  let lowerURL := lcList fwd.full
  match arcgisFrom "mapserver".toList fwd.path with
  | some nm => ⟨splitHead lowerURL restSvc ++ restSvc, "ArcGIS".toList, "MapServer".toList, nm⟩
  | none =>
  match arcgisFrom "featureserver".toList fwd.path with
  | some nm => ⟨splitHead lowerURL restSvc ++ restSvc, "ArcGIS".toList, "FeatureServer".toList, nm⟩
  | none =>
  match arcgisFrom "imageserver".toList fwd.path with
  | some nm => ⟨splitHead lowerURL restSvc ++ restSvc, "ArcGIS".toList, "ImageServer".toList, nm⟩
  | none =>
    let c := (formOf r).foldl classStep ⟨"unknown".toList, "unknown".toList, []⟩
    ⟨splitHead lowerURL ['?'], c.st, c.sv, c.nm⟩

theorem isPre_append : ∀ (l t : List Char), isPre l (l ++ t) = true
  | [], _ => rfl
  | a :: as, t => by simp [isPre, isPre_append as t]

theorem takeWhile_append_all (p : Char → Bool) :
    ∀ (xs ys : List Char), (∀ c ∈ xs, p c = true) →
      (xs ++ ys).takeWhile p = xs ++ ys.takeWhile p
  | [], ys, _ => rfl
  | x :: xs, ys, h => by
    have hx : p x = true := h x (by simp)
    simp [List.takeWhile, hx, takeWhile_append_all p xs ys (fun c hc => h c (by simp [hc]))]

theorem dropWhile_append_all (p : Char → Bool) :
    ∀ (xs ys : List Char), (∀ c ∈ xs, p c = true) →
      (xs ++ ys).dropWhile p = ys.dropWhile p
  | [], ys, _ => rfl
  | x :: xs, ys, h => by
    have hx : p x = true := h x (by simp)
    simp [List.dropWhile, hx, dropWhile_append_all p xs ys (fun c hc => h c (by simp [hc]))]

theorem takeWhile_all (p : Char → Bool) :
    ∀ (xs : List Char), (∀ c ∈ xs, p c = true) → xs.takeWhile p = xs
  | [], _ => rfl
  | x :: xs, h => by
    have hx : p x = true := h x (by simp)
    simp [List.takeWhile, hx, takeWhile_all p xs (fun c hc => h c (by simp [hc]))]

theorem capAt_shape (pre seg trailing : List Char) (hseg : seg ≠ [])
    (hsep : ∀ c ∈ seg, sepChar c = false)
    (htr : trailing = [] ∨ ∃ c t, trailing = c :: t ∧ sepChar c = true) :
    capAt pre (pre ++ (seg ++ trailing)) = some (seg, grp3 trailing) := by
  have hall : ∀ c ∈ seg, (!sepChar c) = true := by
    intro c hc; simp [hsep c hc]
  unfold capAt
  rw [isPre_append]
  simp only [if_true]
  rw [List.drop_left]
  have htake : (seg ++ trailing).takeWhile (fun c => !sepChar c) = seg := by
    rw [takeWhile_append_all _ _ _ hall]
    rcases htr with h | ⟨c, t, rfl, hc⟩
    · simp [h]
    · simp [List.takeWhile, hc]
  have hdrop : (seg ++ trailing).dropWhile (fun c => !sepChar c) = trailing := by
    rw [dropWhile_append_all _ _ _ hall]
    rcases htr with h | ⟨c, t, rfl, hc⟩
    · simp [h]
    · simp [List.dropWhile, hc]
  rw [htake, hdrop]
  simp [hseg]

theorem findCap_cons (pre : List Char) (a : Char) (s : List Char)
    (r : List Char × List Char) (h : capAt pre (a :: s) = some r) :
    findCap pre (a :: s) = some r := by
  simp [findCap, h]

theorem grp3_no_nl (trailing : List Char)
    (hnl : ∀ c ∈ trailing, ¬c = nlChar) :
    grp3 trailing = trailing := by
  match trailing with
  | [] => rfl
  | c :: t =>
    simp only [grp3]
    rw [takeWhile_all _ t (fun d hd => by simp [hnl d (by simp [hd])])]

theorem hGet_cons (k0 : List Char) (vs : List (List Char)) (rest : Hdrs) (kq : List Char) :
    hGet ((k0, vs) :: rest) kq = if k0 = kq then some vs else hGet rest kq := rfl

theorem hGet_hAdd : ∀ (hs : Hdrs) (k v kq : List Char),
    hGet (hAdd hs k v) kq =
      if kq = k then some ((hGet hs k).getD [] ++ [v]) else hGet hs kq
  | [], k, v, kq => by
    by_cases h : kq = k
    · subst h; simp [hAdd, hGet]
    · have h2 : ¬k = kq := fun he => h he.symm
      simp [hAdd, hGet, h, h2]
  | (k0, vs) :: rest, k, v, kq => by
    by_cases h0 : k0 = k
    · subst h0
      by_cases h : kq = k0
      · subst h; simp [hAdd, hGet]
      · have h2 : ¬k0 = kq := fun he => h he.symm
        simp [hAdd, hGet, h, h2]
    · by_cases h : kq = k0
      · simp [hAdd, hGet, h, h0]
      · have h2 : ¬k0 = kq := fun he => h he.symm
        have ih := hGet_hAdd rest k v kq
        simp only [hAdd, if_neg h0, hGet_cons, if_neg h2, ih]

theorem hGet_hAddValues : ∀ (vs : List (List Char)) (hs : Hdrs) (k kq : List Char),
    vs ≠ [] →
    hGet (hAddValues hs k vs) kq =
      if kq = k then some ((hGet hs k).getD [] ++ vs) else hGet hs kq
  | [], _, _, _, hne => absurd rfl hne
  | v :: rest, hs, k, kq, _ => by
    have hstep : hAddValues hs k (v :: rest) = hAddValues (hAdd hs k v) k rest := rfl
    rw [hstep]
    match rest with
    | [] =>
      have he : hAddValues (hAdd hs k v) k [] = hAdd hs k v := rfl
      rw [he, hGet_hAdd]
    | w :: ws =>
      rw [hGet_hAddValues (w :: ws) (hAdd hs k v) k kq (by simp)]
      by_cases h : kq = k
      · subst h
        rw [hGet_hAdd hs kq v kq, if_pos rfl]
        simp
      · rw [if_neg h, if_neg h, hGet_hAdd hs k v kq, if_neg h]

theorem hGet_none_iff : ∀ (hs : Hdrs) (k : List Char),
    hGet hs k = none ↔ k ∉ hs.map Prod.fst
  | [], k => by simp [hGet]
  | (k0, vs) :: rest, k => by
    by_cases h : k0 = k
    · subst h; simp [hGet]
    · have h2 : ¬k = k0 := fun he => h he.symm
      rw [hGet_cons, if_neg h]
      simp only [List.map_cons, List.mem_cons]
      rw [hGet_none_iff rest k]
      constructor
      · intro hn hc
        rcases hc with hc | hc
        · exact h2 hc
        · exact hn hc
      · intro hn
        exact fun hc => hn (Or.inr hc)

theorem hGet_hCopyAll : ∀ (src dst : Hdrs) (kq : List Char),
    (∀ kv ∈ src, kv.2 ≠ []) →
    (src.map Prod.fst).Nodup →
    (∀ k2, hGet src k2 ≠ none → hGet dst k2 = none) →
    hGet (hCopyAll src dst) kq =
      match hGet src kq with
      | some vs => some vs
      | none => hGet dst kq
  | [], dst, kq, _, _, _ => by simp [hCopyAll, hGet]
  | (k, vs) :: rest, dst, kq, hvals, hnodup, hdst => by
    have hvne : vs ≠ [] := hvals (k, vs) (by simp)
    have hknotin : k ∉ rest.map Prod.fst := by
      simp only [List.map_cons, List.nodup_cons] at hnodup
      exact hnodup.1
    have hstep : hCopyAll ((k, vs) :: rest) dst = hCopyAll rest (hAddValues dst k vs) := rfl
    rw [hstep]
    have hrest_nodup : (rest.map Prod.fst).Nodup := by
      simp only [List.map_cons, List.nodup_cons] at hnodup
      exact hnodup.2
    have hdst2 : ∀ k2, hGet rest k2 ≠ none → hGet (hAddValues dst k vs) k2 = none := by
      intro k2 h2
      have hk2 : k2 ∈ rest.map Prod.fst := by
        by_contra hni
        exact h2 ((hGet_none_iff rest k2).mpr hni)
      have hk2ne : ¬k2 = k := fun he => hknotin (he ▸ hk2)
      rw [hGet_hAddValues vs dst k k2 hvne, if_neg hk2ne]
      apply hdst
      rw [hGet_cons, if_neg (fun he : k = k2 => hk2ne he.symm)]
      exact h2
    rw [hGet_hCopyAll rest (hAddValues dst k vs) kq
      (fun kv hkv => hvals kv (by simp [hkv])) hrest_nodup hdst2]
    by_cases h : kq = k
    · subst h
      have h1 : hGet rest kq = none := (hGet_none_iff rest kq).mpr hknotin
      have h2 : hGet dst kq = none := by
        apply hdst
        rw [hGet_cons, if_pos rfl]
        exact fun hc => Option.noConfusion hc
      rw [h1, hGet_hAddValues vs dst kq kq hvne, if_pos rfl, h2]
      rw [hGet_cons, if_pos rfl]
      rfl
    · have h1 : hGet ((k, vs) :: rest) kq = hGet rest kq := by
        rw [hGet_cons, if_neg (fun he : k = kq => h he.symm)]
      rw [h1, hGet_hAddValues vs dst k kq hvne, if_neg h]

theorem hGet_copy_clean (src : Hdrs) (kq : List Char)
    (hvals : ∀ kv ∈ src, kv.2 ≠ []) (hnodup : (src.map Prod.fst).Nodup) :
    hGet (hCopyAll src []) kq = hGet src kq := by
  rw [hGet_hCopyAll src [] kq hvals hnodup (fun _ _ => rfl)]
  match h : hGet src kq with
  | some vs => rfl
  | none => simp [hGet]

theorem hGet_hSet_self : ∀ (hs : Hdrs) (k v : List Char),
    hGet (hSet hs k v) k = some [v]
  | [], k, v => by simp [hSet, hGet]
  | (k0, vs) :: rest, k, v => by
    by_cases h : k0 = k
    · simp [hSet, hGet, h]
    · simp [hSet, hGet, h, hGet_hSet_self rest k v]

theorem hGet_hSet_ne : ∀ (hs : Hdrs) (k v kq : List Char), ¬kq = k →
    hGet (hSet hs k v) kq = hGet hs kq
  | [], k, v, kq, h => by
    have h2 : ¬k = kq := fun he => h he.symm
    simp [hSet, hGet, h2]
  | (k0, vs) :: rest, k, v, kq, h => by
    have h2 : ¬k = kq := fun he => h he.symm
    by_cases h0 : k0 = k
    · subst h0
      simp [hSet, hGet, h2]
    · simp [hSet, hGet, h0, hGet_hSet_ne rest k v kq h]

theorem classFold_no_service : ∀ (form : Hdrs),
    (∀ kv ∈ form, ¬lcList kv.1 = "service".toList) →
    form.foldl classStep ⟨"unknown".toList, "unknown".toList, []⟩ =
      ⟨"unknown".toList, "unknown".toList, []⟩
  | [], _ => rfl
  | kv :: rest, h => by
    have hk : ¬lcList kv.1 = "service".toList := h kv (by simp)
    have hstep : classStep ⟨"unknown".toList, "unknown".toList, []⟩ kv =
        ⟨"unknown".toList, "unknown".toList, []⟩ := by
      simp only [classStep, if_neg hk]
      rw [if_neg (show ¬"unknown".toList = "WMS".toList from by decide)]
      rw [if_neg (show ¬"unknown".toList = "WMTS".toList from by decide)]
      rw [if_neg (show ¬"unknown".toList = "WFS".toList from by decide)]
    have hfold : (kv :: rest).foldl classStep ⟨"unknown".toList, "unknown".toList, []⟩ =
        rest.foldl classStep ⟨"unknown".toList, "unknown".toList, []⟩ := by
      rw [List.foldl_cons, hstep]
    rw [hfold]
    exact classFold_no_service rest (fun kv2 h2 => h kv2 (by simp [h2]))

theorem findCap_at_start (pre seg trailing : List Char) (hpre : pre ≠ [])
    (hseg : seg ≠ []) (hsep : ∀ c ∈ seg, sepChar c = false)
    (htr : trailing = [] ∨ ∃ c t, trailing = c :: t ∧ sepChar c = true) :
    findCap pre (pre ++ (seg ++ trailing)) = some (seg, grp3 trailing) := by
  have hcap : capAt pre (pre ++ (seg ++ trailing)) = some (seg, grp3 trailing) :=
    capAt_shape pre seg trailing hseg hsep htr
  match pre, hpre with
  | p :: pr, _ =>
    exact findCap_cons (p :: pr) p (pr ++ (seg ++ trailing)) _ hcap

theorem computeForwardUrl_decode_err (pre seg trailing : List Char) (i : Nat)
    (hpre : pre ≠ [])
    (hstrip : stripScheme (pre ++ (seg ++ trailing)) = pre ++ (seg ++ trailing))
    (hseg : seg ≠ [])
    (hsep : ∀ c ∈ seg, sepChar c = false)
    (htr : trailing = [] ∨ ∃ c t, trailing = c :: t ∧ sepChar c = true)
    (hdec : b64Dec (unescSeg seg) = Except.error i) :
    computeForwardUrl pre (pre ++ (seg ++ trailing)) = Except.error (b64Msg i) := by
  unfold computeForwardUrl
  rw [hstrip]
  simp only [findCap_at_start pre seg trailing hpre hseg hsep htr, grp3_no_nl, hdec]

/-- C2 counterexample: the outbound request built for a DELETE drops the
inbound body instead of forwarding it, because the source passes the body to
the new request only for PUT, POST and PATCH. -/
theorem c2_counterexample :
    (buildOutReq "DELETE".toList "http://x/y".toList "payload".toList []).body = none ∧
    ¬(buildOutReq "DELETE".toList "http://x/y".toList "payload".toList []).body =
      some "payload".toList := by
  exact ⟨rfl, by decide⟩

/-- C2 (amended): the outbound request uses the same HTTP method and target
and carries every inbound header name with every one of its values in order;
the inbound body is forwarded verbatim for PUT, POST and PATCH, and every
other method gets no body. -/
theorem c2_forwarding_amended (method target bodyBytes : List Char) (hs : Hdrs)
    (hvals : ∀ kv ∈ hs, kv.2 ≠ []) (hnodup : (hs.map Prod.fst).Nodup) :
    (buildOutReq method target bodyBytes hs).method = method ∧
    (buildOutReq method target bodyBytes hs).target = target ∧
    (buildOutReq method target bodyBytes hs).body =
      (if isBodyMethod method then some bodyBytes else none) ∧
    ∀ k, hGet (buildOutReq method target bodyBytes hs).hdrs k = hGet hs k := by
  refine ⟨rfl, rfl, rfl, ?_⟩
  intro k
  exact hGet_copy_clean hs k hvals hnodup

/-- C2 witness: the amended forwarding contract evaluated on a POST with a
two-valued Accept header. -/
theorem c2_witness :
    (buildOutReq "POST".toList "http://x/y".toList "b=1".toList
      [("Accept".toList, ["text/plain".toList, "text/html".toList])]).body =
      (if isBodyMethod "POST".toList then some "b=1".toList else none) ∧
    hGet (buildOutReq "POST".toList "http://x/y".toList "b=1".toList
      [("Accept".toList, ["text/plain".toList, "text/html".toList])]).hdrs "Accept".toList =
      hGet [("Accept".toList, ["text/plain".toList, "text/html".toList])] "Accept".toList := by
  have h := c2_forwarding_amended "POST".toList "http://x/y".toList "b=1".toList
    [("Accept".toList, ["text/plain".toList, "text/html".toList])]
    (by decide) (by decide)
  exact ⟨h.2.2.1, h.2.2.2 "Accept".toList⟩

/-- C3: evaluation at the failing input.  A GET request carrying the query
parameters service WMS and layers roads,rivers classifies as unknown with an
empty service name, because extractInfo only populates request.Form for PUT,
POST and PATCH with a form content type; the same parameters on a
form-encoded POST do classify as WMS, which shows the parameter loop is
reachable only through the body-parsing branch. -/
theorem c3_code_eval :
    extractInfo
      ⟨"GET".toList, [], [("service".toList, ["WMS".toList]),
        ("layers".toList, ["roads,rivers".toList])], []⟩
      ⟨"http://example.com/ows?service=WMS&layers=roads,rivers".toList, "/ows".toList⟩ =
      ⟨"http://example.com/ows".toList, "unknown".toList, "unknown".toList, []⟩ ∧
    extractInfo
      ⟨"POST".toList, "application/x-www-form-urlencoded".toList,
        [("service".toList, ["WMS".toList]),
        ("layers".toList, ["roads,rivers".toList])], []⟩
      ⟨"http://example.com/ows?service=WMS&layers=roads,rivers".toList, "/ows".toList⟩ =
      ⟨"http://example.com/ows".toList, "WMS".toList, "WMS".toList, "roads,rivers".toList⟩ := by
  exact ⟨by decide, by decide⟩

/-- C4 counterexample: a segment made of characters that are invalid base64
after the substitution does fail decoding, and with a fallback handler
configured the request is delegated to it rather than answered with a 500,
contradicting the claim that a decode failure is never delegated. -/
theorem c4_counterexample :
    b64Dec (unescSeg "####".toList) = Except.error 0 ∧
    serveStep "/p/".toList true "/p/####".toList = ServeStep.delegated ∧
    b64Dec (unescSeg "AA%3DA".toList) = Except.error 2 := by
  exact ⟨rfl, rfl, rfl⟩

/-- C4 (amended): when the captured segment fails base64 decoding, the
request is delegated to the fallback handler when one is configured; without
a fallback the proxy responds 500 with the base64 error text, which names the
offending byte offset rather than the segment itself. -/
theorem c4_decode_error_amended (pre seg : List Char) (i : Nat)
    (allow : Bool) (origin : List Char)
    (hnorm : normPre pre = pre) (hne : pre ≠ [])
    (hstrip : stripScheme (pre ++ (seg ++ [])) = pre ++ (seg ++ []))
    (hseg : seg ≠ [])
    (hsep : ∀ c ∈ seg, sepChar c = false)
    (hdec : b64Dec (unescSeg seg) = Except.error i) :
    serveStep pre true (pre ++ (seg ++ [])) = ServeStep.delegated ∧
    serveStep pre false (pre ++ (seg ++ [])) =
      ServeStep.errored (GoError.plainErr (b64Msg i)) ∧
    writeErrorM allow origin (GoError.plainErr (b64Msg i)) =
      ⟨corsSet allow origin [], 500, b64Msg i ++ [nlChar]⟩ := by
  have herr := computeForwardUrl_decode_err pre seg [] i hne hstrip hseg hsep
    (Or.inl rfl) hdec
  rw [List.append_nil] at herr
  refine ⟨?_, ?_, rfl⟩
  · unfold serveStep
    rw [hnorm]
    simp [herr]
  · unfold serveStep
    rw [hnorm]
    simp [herr]

/-- C4 witness: the amended decode-error behaviour evaluated at prefix /p/
and the invalid segment of four hash characters. -/
theorem c4_witness :
    serveStep "/p/".toList true ("/p/".toList ++ ("####".toList ++ [])) =
      ServeStep.delegated ∧
    serveStep "/p/".toList false ("/p/".toList ++ ("####".toList ++ [])) =
      ServeStep.errored (GoError.plainErr (b64Msg 0)) ∧
    writeErrorM false [] (GoError.plainErr (b64Msg 0)) =
      ⟨corsSet false [] [], 500, b64Msg 0 ++ [nlChar]⟩ := by
  exact c4_decode_error_amended "/p/".toList "####".toList 0 false []
    (by decide) (by decide) (by decide) (by decide) (by decide) rfl

/-- C6 counterexample: a pre-send hook failure tagged as a StatusError with
code 200 IS logged by the send stage, whose condition spares only code 302,
contradicting the claim that a 200 hook error is not logged. -/
theorem c6_counterexample :
    (preSend (some (GoError.statusErr "hook handled".toList 200))).logged = true := rfl

/-- C6 (amended): when the pre-send hook fails, the upstream is never
contacted; the send stage logs every hook error except a StatusError with
code 302; a 302 StatusError is relayed as a redirect with Location set to the
message and is not logged anywhere; a 200 StatusError has its message written
as the whole body with status 200 and is not logged by writeError, but it IS
logged by the send stage; any other StatusError surfaces its own code and a
plain error surfaces 500, both logged. -/
theorem c6_hook_error_amended (allow : Bool) (origin m : List Char) (e : GoError) :
    (preSend (some e)).contacted = false ∧
    (preSend (some e)).logged = sendPhaseLogs e ∧
    (sendPhaseLogs e = false ↔ ∃ s, e = GoError.statusErr s 302) ∧
    writeErrorM allow origin (GoError.statusErr m 302) =
      ⟨hSet (corsSet allow origin []) locKey m, 302, []⟩ ∧
    writeErrorLogs (GoError.statusErr m 302) = false ∧
    sendPhaseLogs (GoError.statusErr m 302) = false ∧
    writeErrorM allow origin (GoError.statusErr m 200) =
      ⟨corsSet allow origin [], 200, m⟩ ∧
    writeErrorLogs (GoError.statusErr m 200) = false ∧
    sendPhaseLogs (GoError.statusErr m 200) = true ∧
    (∀ c : Nat, ¬c = 200 → ¬c = 302 →
      writeErrorM allow origin (GoError.statusErr m c) =
        ⟨corsSet allow origin [], c, errText (GoError.statusErr m c) ++ [nlChar]⟩ ∧
      writeErrorLogs (GoError.statusErr m c) = true) ∧
    writeErrorM allow origin (GoError.plainErr m) =
      ⟨corsSet allow origin [], 500, m ++ [nlChar]⟩ ∧
    sendPhaseLogs (GoError.plainErr m) = true := by
  refine ⟨rfl, rfl, ?_, rfl, rfl, rfl, rfl, rfl, rfl, ?_, rfl, rfl⟩
  · constructor
    · intro h
      match e with
      | GoError.statusErr s c =>
        have hc : c = 302 := by
          by_contra hcne
          simp [sendPhaseLogs, hcne] at h
        exact ⟨s, by rw [hc]⟩
      | GoError.plainErr s => simp [sendPhaseLogs] at h
    · rintro ⟨s, rfl⟩
      simp [sendPhaseLogs]
  · intro c h200 h302
    constructor
    · simp only [writeErrorM, if_neg h200, if_neg h302]
    · unfold writeErrorLogs
      simp [h200, h302]

/-- C6 witness: the amended hook-error contract evaluated at a 302
StatusError and, for the general branch, at code 404. -/
theorem c6_witness :
    (preSend (some (GoError.statusErr "x".toList 302))).contacted = false ∧
    sendPhaseLogs (GoError.statusErr "x".toList 302) = false ∧
    writeErrorM false [] (GoError.statusErr "x".toList 404) =
      ⟨corsSet false [] [], 404, errText (GoError.statusErr "x".toList 404) ++ [nlChar]⟩ := by
  have h := c6_hook_error_amended false [] "x".toList (GoError.statusErr "x".toList 302)
  exact ⟨h.1, h.2.2.2.2.2.1, (h.2.2.2.2.2.2.2.2.2.1 404 (by decide) (by decide)).1⟩

/-- C7 counterexample: with CORS enabled and no inbound Origin, an upstream
response that itself carries Access-Control-Allow-Credentials is relayed with
both the wildcard origin and the credentials header, because the source only
sets the wildcard and never removes an upstream credentials header; the claim
that the two are never combined fails. -/
theorem c7_counterexample :
    hGet (writeRespHdr true [] [(acacKey, ["true".toList])]) acaoKey =
      some ["*".toList] ∧
    hGet (writeRespHdr true [] [(acacKey, ["true".toList])]) acacKey =
      some ["true".toList] := by
  exact ⟨rfl, rfl⟩

/-- C7 (amended): with CORS enabled, a nonempty inbound Origin is echoed in
Access-Control-Allow-Origin together with Access-Control-Allow-Credentials
true; with no inbound Origin the wildcard is set and the proxy itself adds no
credentials header, though an upstream-provided credentials header passes
through the header copy unchanged. -/
theorem c7_cors_amended (origin : List Char) (upstream : Hdrs) :
    (¬origin = [] →
      hGet (writeRespHdr true origin upstream) acaoKey = some [origin] ∧
      hGet (writeRespHdr true origin upstream) acacKey = some ["true".toList]) ∧
    (origin = [] →
      hGet (writeRespHdr true origin upstream) acaoKey = some ["*".toList] ∧
      hGet (writeRespHdr true origin upstream) acacKey =
        hGet (hCopyAll upstream []) acacKey) := by
  constructor
  · intro hne
    have hemp : origin.isEmpty = false := by
      cases origin with
      | nil => exact absurd rfl hne
      | cons a t => rfl
    unfold writeRespHdr corsSet
    rw [hemp]
    constructor
    · simp only [Bool.not_false, if_true]
      rw [hGet_hSet_ne _ _ _ _ (show ¬acaoKey = acamKey by decide),
        hGet_hSet_ne _ _ _ _ (show ¬acaoKey = acacKey by decide),
        hGet_hSet_self]
    · simp only [Bool.not_false, if_true]
      rw [hGet_hSet_ne _ _ _ _ (show ¬acacKey = acamKey by decide),
        hGet_hSet_self]
  · intro hz
    subst hz
    constructor
    · show hGet (hSet (hSet (hCopyAll upstream []) acaoKey "*".toList) acamKey acamVal)
        acaoKey = some ["*".toList]
      rw [hGet_hSet_ne _ _ _ _ (show ¬acaoKey = acamKey by decide),
        hGet_hSet_self]
    · show hGet (hSet (hSet (hCopyAll upstream []) acaoKey "*".toList) acamKey acamVal)
        acacKey = hGet (hCopyAll upstream []) acacKey
      rw [hGet_hSet_ne _ _ _ _ (show ¬acacKey = acamKey by decide),
        hGet_hSet_ne _ _ _ _ (show ¬acacKey = acaoKey by decide)]

/-- C7 witness: the amended CORS contract evaluated with the inbound Origin
https://app.example on an empty upstream header map, and with no Origin on an
upstream map already carrying the credentials header. -/
theorem c7_witness :
    (hGet (writeRespHdr true "https://app.example".toList []) acaoKey =
      some ["https://app.example".toList] ∧
     hGet (writeRespHdr true "https://app.example".toList []) acacKey =
      some ["true".toList]) ∧
    (hGet (writeRespHdr true [] [(acacKey, ["true".toList])]) acaoKey =
      some ["*".toList] ∧
     hGet (writeRespHdr true [] [(acacKey, ["true".toList])]) acacKey =
      hGet (hCopyAll [(acacKey, ["true".toList])] []) acacKey) := by
  exact ⟨(c7_cors_amended "https://app.example".toList []).1 (by decide),
    (c7_cors_amended [] [(acacKey, ["true".toList])]).2 rfl⟩

/-- C9 counterexample: with no ArcGIS match and no service parameter the
classifier still sets ServerURL to the forward URL cut at the query, not to
the empty string the claim demands. -/
theorem c9_counterexample :
    (extractInfo ⟨"GET".toList, [], [], []⟩
      ⟨"http://a/b".toList, "/b".toList⟩).serverURL = "http://a/b".toList ∧
    ¬("http://a/b".toList : List Char) = [] := by
  exact ⟨rfl, by decide⟩

/-- C9 (amended): classification is total and, when no ArcGIS pattern matches
and the populated form carries no service parameter, ServerType and
ServiceType stay unknown, ServiceName stays empty, and ServerURL is the
lowercased forward URL truncated at the first question mark. -/
theorem c9_defaults_amended (r : GoReq) (fwd : FwdUrl)
    (h1 : arcgisFrom "mapserver".toList fwd.path = none)
    (h2 : arcgisFrom "featureserver".toList fwd.path = none)
    (h3 : arcgisFrom "imageserver".toList fwd.path = none)
    (h4 : ∀ kv ∈ formOf r, ¬lcList kv.1 = "service".toList) :
    extractInfo r fwd =
      ⟨splitHead (lcList fwd.full) ['?'], "unknown".toList, "unknown".toList, []⟩ := by
  unfold extractInfo
  simp only [h1, h2, h3, classFold_no_service (formOf r) h4]

/-- C9 witness: the amended default classification evaluated at a bare GET
request for http://a/b. -/
theorem c9_witness :
    extractInfo ⟨"GET".toList, [], [], []⟩ ⟨"http://a/b".toList, "/b".toList⟩ =
      ⟨splitHead (lcList "http://a/b".toList) ['?'], "unknown".toList,
        "unknown".toList, []⟩ := by
  exact c9_defaults_amended ⟨"GET".toList, [], [], []⟩
    ⟨"http://a/b".toList, "/b".toList⟩ rfl rfl rfl (by decide)

